import Mathlib

/-
Verification of the watermark-driven synchronization engine of the
caspian-jobs repository, shallowly embedded in Lean.

Conventions used throughout the embedding:
- Machine timestamps are Unix seconds modelled as `Int`. The source converts
  export-API milliseconds to seconds with `int(ms / 1000)`; the model works in
  seconds directly.
- Metric values are floats in the source; every claim treats them as opaque
  pass-through data, so they are modelled as `Int`.
- A business date is modelled by its day index `d` (days since the epoch),
  with the day window `[86400*d, 86400*d + 86399]`; the source parses the
  biz_date label from a dd/mm/yyyy string into a calendar date, the model
  parses the label as a decimal day index (`String.toInt?`), since only the
  induced UTC day window matters to the claims.
- External HTTP calls are modelled by passing their result in as data
  (the sink content for export queries, an `Except` for fallible calls).
-/

namespace CaspianJobs

/-! ## Label lists and normalization

Python label dictionaries are modelled as association lists of
(key, value) pairs. `sorted(labels.items())` sorts pairs
lexicographically (key first, value as tie-break). -/

/-- Strict lexicographic comparison of character lists by code point,
the order Python uses to compare strings. -/
def lexLt : List Char → List Char → Bool
  | [], [] => false
  | [], _ :: _ => true
  | _ :: _, [] => false
  | a :: as, b :: bs =>
    if a.toNat < b.toNat then true
    else if b.toNat < a.toNat then false
    else lexLt as bs

/-- Strict lexicographic order on (key, value) label pairs, mirroring
Python tuple comparison used by sorted(labels.items()). -/
def labelPairLtB (a b : String × String) : Bool :=
  lexLt a.1.data b.1.data || (a.1 == b.1 && lexLt a.2.data b.2.data)

/-- The reflexive closure of the pair order, used as the sorting relation. -/
def labelPairLe (a b : String × String) : Prop :=
  labelPairLtB a b = true ∨ a = b

instance : DecidableRel labelPairLe := fun a b => by
  unfold labelPairLe; infer_instance

/-- Sort a label association list into the canonical order produced by
Python sorted(labels.items()). -/
def sortLabels (l : List (String × String)) : List (String × String) :=
  List.insertionSort labelPairLe l

/-- Python labels.get(k): value of the first pair with the given key. -/
def lookupLabel (labels : List (String × String)) (k : String) : Option String :=
  (labels.find? (fun kv => kv.1 == k)).map (·.2)

/-- Python labels.pop(k) / dict comprehension excluding a key. -/
def removeKey (labels : List (String × String)) (k : String) : List (String × String) :=
  labels.filter (fun kv => !(kv.1 == k))

/-- Python labels[k] = v on a dict: any previous binding of k is replaced. -/
def setKey (labels : List (String × String)) (k v : String) : List (String × String) :=
  removeKey labels k ++ [(k, v)]

/-! ## Business Date Converter
(src/victoria_metrics_jobs/jobs/business_date_converter/business_date_converter.py)

The sink (VictoriaMetrics) is modelled as a list of written points; its
write endpoint overwrites the point with identical series and timestamp,
modelled last-writer-wins by prepending and looking up the first match. -/

/-- A time series identity: metric name and label pairs. -/
abbrev SeriesKey := String × List (String × String)

/-- The sink content: ((series, timestamp), value) points, most recent
write first. -/
abbrev Sink := List ((SeriesKey × Int) × Int)

/-- One line of the /api/v1/export response: a series with its
(value, timestamp-in-seconds) data points. Labels exclude name. -/
structure ExportLine where
  metricName : String
  labels : List (String × String)
  points : List (Int × Int)
deriving DecidableEq

/-- Write to the VM import endpoint: overwrites on identical
(series, timestamp) key, modelled by prepending. -/
def upsertSink (sink : Sink) (k : SeriesKey × Int) (v : Int) : Sink :=
  (k, v) :: sink

/-- Sink-observable state: the value stored at a (series, timestamp) key. -/
def lookupSink (sink : Sink) (k : SeriesKey × Int) : Option Int :=
  (sink.find? (fun p => p.1 == k)).map (·.2)

/-- Midnight UTC of business day d (00:00:00 of the converted date). -/
def dayStart (d : Int) : Int := 86400 * d

/-- 23:59:59 UTC of business day d. -/
def dayEnd (d : Int) : Int := 86400 * d + 86399

/-- Whether a timestamp falls on business day d, mirroring the
ts_dt.date() == business_date filter of the export lookup. -/
def inWindowB (d t : Int) : Bool := dayStart d ≤ t && t ≤ dayEnd d

/-- PromQL instant-selector matching: the query matches a stored series
when names agree and every query label pair is carried by the series. -/
def seriesMatches (query series : SeriesKey) : Bool :=
  query.1 == series.1 && query.2.all (fun kv => series.2.contains kv)

/-- Timestamps of the sink points of series matching the query that fall
on business day d (what the converted-series export query returns). -/
def sinkDayTimestamps (sink : Sink) (s : SeriesKey) (d : Int) : List Int :=
  (sink.filter (fun p => seriesMatches s p.1.1 && inWindowB d p.1.2)).map
    (fun p => p.1.2)

/-- Maximum of a list of timestamps, none when empty, mirroring the
running-max loop of the source. -/
def listMax : List Int → Option Int
  | [] => none
  | t :: ts =>
    match listMax ts with
    | none => some t
    | some m => some (max t m)

/-- Model of query export max timestamp (source lines 580-680): the export
call for the converted series over the day window. The HTTP call result is
passed in: on a raised exception the function returns none (lines 675-680);
on success it returns the max stored timestamp of matching points on the
business day, or none when no data exists. -/
def queryExportMaxTimestamp (fetchRes : Except String Sink) (s : SeriesKey)
    (d : Int) : Option Int :=
  match fetchRes with
  | .error _ => none
  | .ok sink => listMax (sinkDayTimestamps sink s d)

/-- Max existing converted timestamp for a series on a day, read directly
from sink contents (the successful-fetch path). -/
def maxExistingDayTs (sink : Sink) (s : SeriesKey) (d : Int) : Option Int :=
  listMax (sinkDayTimestamps sink s d)

/-- Cursor step of the allocator (source lines 562-573): no existing entry
on the day gives midnight; otherwise max existing + 1 capped at 23:59:59. -/
def allocTs (m : Option Int) (d : Int) : Int :=
  match m with
  | none => dayStart d
  | some x => min (x + 1) (dayEnd d)

/-- The series key under which a converted point is written (and queried):
biz_date removed, timeseries type label set to converted (source lines
539-548 and 759-768 build the same label set). -/
def convertedSeriesKey (name : String) (labels : List (String × String)) : SeriesKey :=
  (name, sortLabels (setKey (removeKey labels "biz_date") "timeseries_type" "converted"))

/-- Model of calculate converted timestamp (source lines 521-578): missing
or empty job label falls back to midnight; otherwise the allocator step is
applied to the export lookup result (a failed lookup also yields midnight,
through queryExportMaxTimestamp returning none). -/
def calculateConvertedTimestamp (fetchRes : Except String Sink) (name : String)
    (labels : List (String × String)) (d : Int) : Int :=
  if (lookupLabel labels "job").getD "" = "" then dayStart d
  else allocTs (queryExportMaxTimestamp fetchRes (convertedSeriesKey name labels) d) d

/-- Group key of query grouped metrics: (metric name, sorted labels without
biz_date, raw biz_date label). -/
abbrev GroupKey := String × List (String × String) × String

/-- Decimal digit accumulator over the characters of a label value. -/
def parseDigitsAux : List Char → Nat → Option Nat
  | [], acc => some acc
  | c :: cs, acc =>
    if c.isDigit then parseDigitsAux cs (acc * 10 + (c.toNat - 48)) else none

/-- Python biz_date parsing, abstracted: the source parses dd/mm/yyyy into
a calendar date; the model parses a decimal day index. Parse failure skips
the sample, as in the source. -/
def parseBizDate (s : String) : Option Int :=
  match s.data with
  | [] => none
  | cs => (parseDigitsAux cs 0).map Int.ofNat

/-- First stored (value, timestamp) for a group key, mirroring dict
membership in the grouping loop. -/
def findGroup : List (GroupKey × Int × Int) → GroupKey → Option (Int × Int)
  | [], _ => none
  | (k, v, t) :: rest, key => if k = key then some (v, t) else findGroup rest key

/-- In-place update of the stored (value, timestamp) of a group key,
preserving dict insertion order. -/
def replaceGroup : List (GroupKey × Int × Int) → GroupKey → Int × Int →
    List (GroupKey × Int × Int)
  | [], _, _ => []
  | (k, v0, t0) :: rest, key, vt =>
    if k = key then (k, vt.1, vt.2) :: rest
    else (k, v0, t0) :: replaceGroup rest key vt

/-- Key extraction for one export line (source lines 461-483): skip on
empty metric name, skip when the biz_date label is absent or empty;
otherwise the group key uses the sorted remaining labels. -/
def lineKeyPoints (line : ExportLine) : Option (GroupKey × List (Int × Int)) :=
  if line.metricName = "" then none
  else
    match lookupLabel line.labels "biz_date" with
    | none => none
    | some bd =>
      if bd = "" then none
      else some ((line.metricName, sortLabels (removeKey line.labels "biz_date"), bd),
        line.points)

/-- One data point of the grouping loop (source lines 487-509): update the
running max timestamp, then keep the point with the strictly latest
timestamp per group key (new key appended in dict insertion order). -/
def groupStep (acc : List (GroupKey × Int × Int) × Option Int) (key : GroupKey)
    (p : Int × Int) : List (GroupKey × Int × Int) × Option Int :=
  let m : Option Int :=
    match acc.2 with
    | none => some p.2
    | some m0 => some (max m0 p.2)
  let g :=
    match findGroup acc.1 key with
    | none => acc.1 ++ [(key, p.1, p.2)]
    | some (_, t0) => if t0 < p.2 then replaceGroup acc.1 key (p.1, p.2) else acc.1
  (g, m)

/-- One export line of the grouping loop: skipped entirely when the line
has no usable key, otherwise its points are folded in. -/
def lineStep (acc : List (GroupKey × Int × Int) × Option Int) (line : ExportLine) :
    List (GroupKey × Int × Int) × Option Int :=
  match lineKeyPoints line with
  | none => acc
  | some (key, pts) => pts.foldl (fun a p => groupStep a key p) acc

/-- Model of query grouped metrics (source lines 385-519): fold the export
lines into the grouped map and the max input timestamp. -/
def queryGroupedMetrics (lines : List ExportLine) :
    List (GroupKey × Int × Int) × Option Int :=
  lines.foldl lineStep ([], none)

/-- The external source read: the export endpoint returns, per series, the
data points inside the inclusive [start, end] window. -/
def fetchWindow (startTs endTs : Int) (src : List ExportLine) : List ExportLine :=
  src.map (fun l =>
    { l with points := l.points.filter (fun p => startTs ≤ p.2 && p.2 ≤ endTs) })

/-- Fetch window start (source lines 289-304): a present, nonzero watermark
is used as the start directly; otherwise now minus the lookback period.
Python truthiness makes a zero watermark fall into the lookback branch. -/
def computeWindowStart (wm : Option Int) (nowTs lookbackDays : Int) : Int :=
  match wm with
  | some w => if w = 0 then nowTs - lookbackDays * 86400 else w
  | none => nowTs - lookbackDays * 86400

/-- The guard + allocation + write data of one grouped entry: none when the
job label is missing or empty, or the biz_date fails to parse (the loop
skips the sample); otherwise the converted series key and day. -/
def entrySD (e : GroupKey × Int × Int) : Option (SeriesKey × Int) :=
  if (lookupLabel e.1.2.1 "job").getD "" = "" then none
  else
    match parseBizDate e.1.2.2 with
    | none => none
    | some d => some (convertedSeriesKey e.1.1 e.1.2.1, d)

/-- One iteration of the conversion loop (source lines 330-372): apply the
guards, allocate the converted timestamp against the current sink, write
the converted point. Returns the new sink and the allocation record. -/
def convertEntry (sink : Sink) (e : GroupKey × Int × Int) :
    Sink × (GroupKey × Option Int) :=
  match entrySD e with
  | none => (sink, (e.1, none))
  | some (s, d) =>
    let t := calculateConvertedTimestamp (Except.ok sink) e.1.1 e.1.2.1 d
    (upsertSink sink (s, t) e.2.1, (e.1, some t))

/-- The conversion loop over the grouped entries, threading the sink and
collecting each entry's allocated output timestamp. -/
def convertAll (sink : Sink) : List (GroupKey × Int × Int) →
    Sink × List (GroupKey × Option Int)
  | [] => (sink, [])
  | e :: rest =>
    let p := convertEntry sink e
    let q := convertAll p.1 rest
    (q.1, p.2 :: q.2)

/-- Result of running one selector of the coordinator. -/
structure RunResult where
  sink : Sink
  wm : Option Int
  wmWrites : List (String × Int)
deriving DecidableEq

/-- Model of one selector iteration of query and convert metrics plus the
watermark update step (source lines 274-383 and 779-821): compute the
window, fetch, group, convert each sample, then write the selector
watermark only when input data was found. The empty-window guard (source
lines 414-417 return an empty grouping when start is not before end, so
no watermark write follows) is placed here at the same boundary. The
watermark metric key is the md5 selector hash in the source, a stable
injective renaming modelled by the selector string itself. -/
def runSelector (selector : String) (src : List ExportLine) (sink : Sink)
    (wm : Option Int) (nowTs lookbackDays : Int) : RunResult :=
  let startTs := computeWindowStart wm nowTs lookbackDays
  if nowTs ≤ startTs then ⟨sink, wm, []⟩
  else
    let fetched := fetchWindow startTs nowTs src
    let gm := queryGroupedMetrics fetched
    let sink2 := (convertAll sink gm.1).1
    match gm.2 with
    | none => ⟨sink2, wm, []⟩
    | some t => ⟨sink2, some t, [(selector, t)]⟩

/-- The action the conversion loop performs for one sample once its guards
passed, at the level of a converted series and day: allocate the next
cursor value from the existing sink content and write the point there. -/
def placeSample (sink : Sink) (s : SeriesKey) (d : Int) (v : Int) : Sink × Int :=
  let t := allocTs (maxExistingDayTs sink s d) d
  (upsertSink sink (s, t) v, t)

/-- The output timestamp a grouped entry would be assigned against a given
sink content (none when its guards skip it). -/
def assignTs (sink : Sink) (e : GroupKey × Int × Int) : Option Int :=
  (entrySD e).map (fun sd => allocTs (maxExistingDayTs sink sd.1 sd.2) sd.2)

/-- Two grouped entries are non-interfering when they target different
business days or series whose converted queries match neither the one nor
the other written series. -/
def compatibleEntriesB (a b : GroupKey × Int × Int) : Bool :=
  match entrySD a, entrySD b with
  | some sda, some sdb =>
    decide (sda.2 ≠ sdb.2) ||
      (!seriesMatches sda.1 sdb.1 && !seriesMatches sdb.1 sda.1)
  | _, _ => true

/-- Propositional form of entry compatibility. -/
def compatibleEntries (a b : GroupKey × Int × Int) : Prop :=
  compatibleEntriesB a b = true

instance : ∀ a b, Decidable (compatibleEntries a b) := fun a b => by
  unfold compatibleEntries; infer_instance

/-- The (parsed business date, original timestamp) sequence of the grouped
entries, in the order the conversion loop visits them. -/
def groupedDateTsOrder (lines : List ExportLine) : List (Int × Int) :=
  (queryGroupedMetrics lines).1.filterMap
    (fun e => (parseBizDate e.1.2.2).map (fun d => (d, e.2.2)))

/-- Modelled from the spec, for comparison with the code: the fixed
deterministic processing order the spec claims, sorted by business date
first and original timestamp second. -/
def specSortedByDateThenTs : List (Int × Int) → Bool
  | [] => true
  | [_] => true
  | a :: b :: rest =>
    (decide (a.1 < b.1) || (a.1 == b.1 && decide (a.2 ≤ b.2))) &&
      specSortedByDateThenTs (b :: rest)

/-! ## Metric Identity Registry
(src/victoria_metrics_jobs/jobs/metrics_extract/metrics_extract.py)

The vm_metric_metadata table is modelled as a list of rows plus the
BIGSERIAL job_idx sequence; vm_metric_data as a list of
((job_idx, metric_id, timestamp), (value, run_id)) points with
ON CONFLICT DO UPDATE modelled last-writer-wins by prepending. The model
covers the success path; database-exception paths (which return
(None, None) in the source) are outside it. -/

/-- One row of vm_metric_metadata. Labels are stored normalized. -/
structure MetaRow where
  jobIdx : Nat
  metricId : Nat
  jobId : String
  metricName : String
  metricLabels : List (String × String)
deriving DecidableEq

/-- The metadata table plus the store-generated job_idx sequence. -/
structure MetaStore where
  rows : List MetaRow
  nextJobIdx : Nat
deriving DecidableEq

/-- The vm_metric_data table. -/
abbrev DataStore := List ((Nat × Nat × Int) × Int × Nat)

/-- One extracted series: name, labels, (timestamp, value) samples. -/
structure SeriesHistory where
  metricName : String
  labels : List (String × String)
  samples : List (Int × Int)
deriving DecidableEq

/-- Model of normalize metric labels for comparison (source lines
698-702): sort by key with deterministic serialization; the sorted pair
list stands for the canonical JSON string, which encodes it injectively. -/
def normalizeMetricLabelsForComparison (labels : List (String × String)) :
    List (String × String) :=
  sortLabels labels

/-- Model of find or get job idx (source lines 704-747): the job_idx of
the first metadata row carrying the job_id, none when no row exists. -/
def findOrGetJobIdx (store : MetaStore) (jobId : String) : Option Nat :=
  (store.rows.find? (fun r => r.jobId == jobId)).map (·.jobIdx)

/-- The metadata lookup of find or get metric id: first row matching the
(job_idx, job_id, metric_name, normalized labels) identity key. -/
def findMetaRow (store : MetaStore) (j : Nat) (jobId name : String)
    (norm : List (String × String)) : Option MetaRow :=
  store.rows.find? (fun r =>
    r.jobIdx == j && r.jobId == jobId && r.metricName == name &&
      r.metricLabels == norm)

/-- COALESCE(MAX(metric_id), 0) over the rows of one job_idx. -/
def maxMetricId (store : MetaStore) (j : Nat) : Nat :=
  store.rows.foldl (fun m r => if r.jobIdx == j then max m r.metricId else m) 0

/-- Model of find or get metric id (source lines 749-907): with a known
job_idx, return the matching row's metric_id, else insert max+1 and return
it; with no job_idx yet, a single insert allocates the store-generated
job_idx together with metric_id 1 and returns both. The source commits the
inserted row before returning (lines 841 and 875). -/
def findOrGetMetricId (store : MetaStore) (jobIdx : Option Nat)
    (jobId name : String) (labels : List (String × String)) :
    MetaStore × Nat × Nat :=
  let norm := normalizeMetricLabelsForComparison labels
  match jobIdx with
  | some j =>
    match findMetaRow store j jobId name norm with
    | some r => (store, j, r.metricId)
    | none =>
      let newId := maxMetricId store j + 1
      (⟨store.rows ++ [⟨j, newId, jobId, name, norm⟩], store.nextJobIdx⟩, j, newId)
  | none =>
    (⟨store.rows ++ [⟨store.nextJobIdx, 1, jobId, name, norm⟩], store.nextJobIdx + 1⟩,
      store.nextJobIdx, 1)

/-- The resolve step of save series to database (source lines 942-949):
look up the job_idx for the namespace, then find or create the metric id. -/
def resolveIdentity (store : MetaStore) (jobId name : String)
    (labels : List (String × String)) : MetaStore × Nat × Nat :=
  findOrGetMetricId store (findOrGetJobIdx store jobId) jobId name labels

/-- ON CONFLICT (job_idx, metric_id, metric_timestamp) DO UPDATE, modelled
last-writer-wins by prepending. -/
def upsertData (data : DataStore) (k : Nat × Nat × Int) (v : Int) (runId : Nat) :
    DataStore :=
  (k, v, runId) :: data

/-- Model of save series to database (source lines 909-1012): derive the
job_id from the job label (falling back to the extractor job id), strip
the job label, resolve the identity — committing the metadata row — then
upsert every sample as a data point referencing it. Returns the stores and
the number of rows written. -/
def saveSeriesToDatabase (meta : MetaStore) (data : DataStore)
    (series : SeriesHistory) (runId : Nat) (fallbackJobId : String) :
    MetaStore × DataStore × Nat :=
  let jobId :=
    match lookupLabel series.labels "job" with
    | none => fallbackJobId
    | some j => if j = "" then fallbackJobId else j
  let metricLabels := removeKey series.labels "job"
  let res := findOrGetMetricId meta (findOrGetJobIdx meta jobId) jobId
    series.metricName metricLabels
  let data2 := series.samples.foldl
    (fun dst p => upsertData dst (res.2.1, res.2.2, p.1) p.2 runId) data
  (res.1, data2, series.samples.length)

/-- Foreign-key invariant of the relational schema: every data point
references an existing metadata row. -/
def FKInv (meta : MetaStore) (data : DataStore) : Prop :=
  ∀ p ∈ data, ∃ r ∈ meta.rows, r.jobIdx = p.1.1 ∧ r.metricId = p.1.2.1

/-! ## Order properties of the label normalization -/

theorem char_eq_of_toNat_eq {a b : Char} (h : a.toNat = b.toNat) : a = b :=
  Char.ext (UInt32.ext h)

theorem lexLt_trans : ∀ l1 l2 l3, lexLt l1 l2 = true → lexLt l2 l3 = true →
    lexLt l1 l3 = true
  | [], [], _, h, _ => by simp [lexLt] at h
  | [], _ :: _, [], _, h => by simp [lexLt] at h
  | [], _ :: _, _ :: _, _, _ => by simp [lexLt]
  | _ :: _, [], _, h, _ => by simp [lexLt] at h
  | _ :: _, _ :: _, [], _, h => by simp [lexLt] at h
  | a :: as, b :: bs, c :: cs, h1, h2 => by
    simp only [lexLt] at h1 h2 ⊢
    split at h1
    · split at h2
      · simp [show a.toNat < c.toNat by omega]
      · split at h2
        · exact absurd h2 (by simp)
        · have hbc : b.toNat = c.toNat := by omega
          simp [show a.toNat < c.toNat by omega]
    · split at h1
      · exact absurd h1 (by simp)
      · have hab : a.toNat = b.toNat := by omega
        split at h2
        · simp [show a.toNat < c.toNat by omega]
        · split at h2
          · exact absurd h2 (by simp)
          · have hbc : b.toNat = c.toNat := by omega
            have h3 := lexLt_trans as bs cs h1 h2
            simp [show ¬ a.toNat < c.toNat by omega,
              show ¬ c.toNat < a.toNat by omega, h3]

theorem lexLt_asymm : ∀ l1 l2, lexLt l1 l2 = true → lexLt l2 l1 = false
  | [], [], h => by simp [lexLt] at h
  | [], _ :: _, _ => by simp [lexLt]
  | _ :: _, [], h => by simp [lexLt] at h
  | a :: as, b :: bs, h => by
    simp only [lexLt] at h ⊢
    split at h
    · rename_i hlt
      simp [show ¬ b.toNat < a.toNat by omega, hlt]
    · split at h
      · exact absurd h (by simp)
      · have h3 := lexLt_asymm as bs h
        simp_all

theorem lexLt_trichot : ∀ l1 l2, lexLt l1 l2 = true ∨ lexLt l2 l1 = true ∨ l1 = l2
  | [], [] => Or.inr (Or.inr rfl)
  | [], _ :: _ => Or.inl (by simp [lexLt])
  | _ :: _, [] => Or.inr (Or.inl (by simp [lexLt]))
  | a :: as, b :: bs => by
    rcases Nat.lt_trichotomy a.toNat b.toNat with h | h | h
    · exact Or.inl (by simp [lexLt, h])
    · have hab : a = b := char_eq_of_toNat_eq h
      subst hab
      rcases lexLt_trichot as bs with h2 | h2 | h2
      · exact Or.inl (by simp [lexLt, h2])
      · exact Or.inr (Or.inl (by simp [lexLt, h2]))
      · exact Or.inr (Or.inr (by simp [h2]))
    · exact Or.inr (Or.inl (by simp [lexLt, h, show ¬ a.toNat < b.toNat by omega]))

theorem string_eq_of_data_eq {a b : String} (h : a.data = b.data) : a = b := by
  cases a; cases b; exact congrArg String.mk h

theorem labelPairLtB_trans {a b c : String × String}
    (h1 : labelPairLtB a b = true) (h2 : labelPairLtB b c = true) :
    labelPairLtB a c = true := by
  simp only [labelPairLtB, Bool.or_eq_true, Bool.and_eq_true, beq_iff_eq] at h1 h2 ⊢
  rcases h1 with h1 | ⟨h1, h1'⟩
  · rcases h2 with h2 | ⟨h2, _⟩
    · exact Or.inl (lexLt_trans _ _ _ h1 h2)
    · exact Or.inl (h2 ▸ h1)
  · rcases h2 with h2 | ⟨h2, h2'⟩
    · exact Or.inl (h1 ▸ h2)
    · exact Or.inr ⟨h1.trans h2, lexLt_trans _ _ _ h1' h2'⟩

theorem labelPairLtB_asymm {a b : String × String}
    (h1 : labelPairLtB a b = true) (h2 : labelPairLtB b a = true) : False := by
  simp only [labelPairLtB, Bool.or_eq_true, Bool.and_eq_true, beq_iff_eq] at h1 h2
  rcases h1 with h1 | ⟨h1, h1'⟩
  · rcases h2 with h2 | ⟨h2, _⟩
    · have := lexLt_asymm _ _ h1; simp_all
    · rw [h2] at h1; have := lexLt_asymm _ _ h1; simp_all
  · rcases h2 with h2 | ⟨_, h2'⟩
    · rw [h1] at h2; have := lexLt_asymm _ _ h2; simp_all
    · have := lexLt_asymm _ _ h1'; simp_all

theorem labelPairLtB_trichot (a b : String × String) :
    labelPairLtB a b = true ∨ labelPairLtB b a = true ∨ a = b := by
  rcases lexLt_trichot a.1.data b.1.data with h | h | h
  · exact Or.inl (by simp [labelPairLtB, h])
  · exact Or.inr (Or.inl (by simp [labelPairLtB, h]))
  · have hk : a.1 = b.1 := string_eq_of_data_eq h
    rcases lexLt_trichot a.2.data b.2.data with h2 | h2 | h2
    · exact Or.inl (by simp [labelPairLtB, h2, hk])
    · exact Or.inr (Or.inl (by simp [labelPairLtB, h2, hk.symm]))
    · exact Or.inr (Or.inr (Prod.ext hk (string_eq_of_data_eq h2)))

instance : IsTotal (String × String) labelPairLe := by
  constructor
  intro a b
  rcases labelPairLtB_trichot a b with h | h | h
  · exact Or.inl (Or.inl h)
  · exact Or.inr (Or.inl h)
  · exact Or.inl (Or.inr h)

instance : IsTrans (String × String) labelPairLe := by
  constructor
  intro a b c hab hbc
  rcases hab with h1 | rfl
  · rcases hbc with h2 | rfl
    · exact Or.inl (labelPairLtB_trans h1 h2)
    · exact Or.inl h1
  · exact hbc

instance : IsAntisymm (String × String) labelPairLe := by
  constructor
  intro a b hab hba
  rcases hab with h1 | rfl
  · rcases hba with h2 | h2
    · exact (labelPairLtB_asymm h1 h2).elim
    · exact h2.symm
  · rfl

/-- Sorting is invariant under permutation of the input pairs: two label
maps holding the same key-value pairs normalize identically. -/
theorem sortLabels_eq_of_perm {l1 l2 : List (String × String)}
    (h : l1.Perm l2) : sortLabels l1 = sortLabels l2 :=
  List.eq_of_perm_of_sorted
    (((List.perm_insertionSort labelPairLe l1).trans h).trans
      (List.perm_insertionSort labelPairLe l2).symm)
    (List.sorted_insertionSort labelPairLe l1)
    (List.sorted_insertionSort labelPairLe l2)

/-! ## Allocator facts -/

theorem seriesMatches_refl (s : SeriesKey) : seriesMatches s s = true := by
  simp only [seriesMatches, Bool.and_eq_true, beq_self_eq_true, true_and,
    List.all_eq_true]
  intro kv hkv
  exact List.elem_eq_true_of_mem hkv

theorem listMax_mem : ∀ {l : List Int} {m}, listMax l = some m → m ∈ l
  | [], _, h => by simp [listMax] at h
  | t :: ts, m, h => by
    simp only [listMax] at h
    cases hts : listMax ts with
    | none =>
      rw [hts] at h
      cases h
      exact List.mem_cons_self _ _
    | some m0 =>
      rw [hts] at h
      cases h
      rcases max_choice t m0 with h2 | h2
      · rw [h2]; exact List.mem_cons_self _ _
      · rw [h2]; exact List.mem_cons_of_mem _ (listMax_mem hts)

theorem listMax_eq_none : ∀ {l : List Int}, listMax l = none → l = []
  | [], _ => rfl
  | t :: ts, h => by
    simp only [listMax] at h
    cases hts : listMax ts <;> rw [hts] at h <;> cases h

theorem listMax_ge : ∀ {l : List Int} {m}, listMax l = some m → ∀ x ∈ l, x ≤ m
  | [], _, _, x, hx => by simp at hx
  | t :: ts, m, h, x, hx => by
    simp only [listMax] at h
    cases hts : listMax ts with
    | none =>
      rw [hts] at h
      cases h
      rcases List.mem_cons.mp hx with rfl | hx2
      · exact le_refl _
      · exact absurd hx2 (by simp [listMax_eq_none hts])
    | some m0 =>
      rw [hts] at h
      cases h
      rcases List.mem_cons.mp hx with rfl | hx2
      · exact le_max_left _ _
      · exact le_trans (listMax_ge hts x hx2) (le_max_right _ _)

theorem inWindowB_dayStart (d : Int) : inWindowB d (dayStart d) = true := by
  simp only [inWindowB, dayStart, dayEnd, Bool.and_eq_true, decide_eq_true_eq]
  omega

theorem mem_sinkDayTimestamps_inWindow {sink : Sink} {s : SeriesKey} {d x : Int}
    (h : x ∈ sinkDayTimestamps sink s d) : inWindowB d x = true := by
  simp only [sinkDayTimestamps, List.mem_map] at h
  obtain ⟨p, hp, rfl⟩ := h
  have h2 := List.of_mem_filter hp
  simp only [Bool.and_eq_true] at h2
  exact h2.2

theorem maxExistingDayTs_some_inWindow {sink : Sink} {s : SeriesKey} {d m : Int}
    (h : maxExistingDayTs sink s d = some m) : inWindowB d m = true :=
  mem_sinkDayTimestamps_inWindow (listMax_mem h)

theorem allocTs_inWindow (sink : Sink) (s : SeriesKey) (d : Int) :
    inWindowB d (allocTs (maxExistingDayTs sink s d) d) = true := by
  cases hm : maxExistingDayTs sink s d with
  | none => exact inWindowB_dayStart d
  | some m =>
    have hw := maxExistingDayTs_some_inWindow hm
    simp only [inWindowB, dayStart, dayEnd, Bool.and_eq_true, decide_eq_true_eq,
      allocTs] at hw ⊢
    omega

theorem sinkDayTimestamps_upsert_pos {s : SeriesKey} {d : Int}
    {k : SeriesKey × Int} (sink : Sink) (v : Int)
    (h : (seriesMatches s k.1 && inWindowB d k.2) = true) :
    sinkDayTimestamps (upsertSink sink k v) s d = k.2 :: sinkDayTimestamps sink s d := by
  simp [sinkDayTimestamps, upsertSink, List.filter_cons, h]

theorem sinkDayTimestamps_upsert_neg {s : SeriesKey} {d : Int}
    {k : SeriesKey × Int} (sink : Sink) (v : Int)
    (h : (seriesMatches s k.1 && inWindowB d k.2) = false) :
    sinkDayTimestamps (upsertSink sink k v) s d = sinkDayTimestamps sink s d := by
  simp [sinkDayTimestamps, upsertSink, List.filter_cons, h]

theorem maxExistingDayTs_upsert_other {sink : Sink} {s : SeriesKey} {d : Int}
    {k : SeriesKey × Int} {v : Int}
    (h : (seriesMatches s k.1 && inWindowB d k.2) = false) :
    maxExistingDayTs (upsertSink sink k v) s d = maxExistingDayTs sink s d := by
  unfold maxExistingDayTs
  rw [sinkDayTimestamps_upsert_neg sink v h]

/-- After the allocated point of a (series, day) is written, the sink max
for that series and day equals the allocated timestamp: the converted
points themselves persist the day cursor. -/
theorem maxExistingDayTs_place (sink : Sink) (s : SeriesKey) (d : Int) (v : Int) :
    maxExistingDayTs (upsertSink sink (s, allocTs (maxExistingDayTs sink s d) d) v) s d
      = some (allocTs (maxExistingDayTs sink s d) d) := by
  have hpos : (seriesMatches s (s, allocTs (maxExistingDayTs sink s d) d).1 &&
      inWindowB d (s, allocTs (maxExistingDayTs sink s d) d).2) = true := by
    rw [seriesMatches_refl, allocTs_inWindow]
    rfl
  show listMax (sinkDayTimestamps
      (upsertSink sink (s, allocTs (maxExistingDayTs sink s d) d) v) s d)
    = some (allocTs (maxExistingDayTs sink s d) d)
  rw [sinkDayTimestamps_upsert_pos sink v hpos]
  cases hm : maxExistingDayTs sink s d with
  | none =>
    have hnil : sinkDayTimestamps sink s d = [] := listMax_eq_none hm
    rw [hnil]
    rfl
  | some m =>
    have hw := maxExistingDayTs_some_inWindow hm
    have hle : m ≤ allocTs (some m) d := by
      simp only [inWindowB, dayStart, dayEnd, Bool.and_eq_true, decide_eq_true_eq] at hw
      simp only [allocTs, le_min_iff, dayEnd, dayStart]
      omega
    have hold : listMax (sinkDayTimestamps sink s d) = some m := hm
    have hcons : listMax (allocTs (some m) d :: sinkDayTimestamps sink s d)
        = some (max (allocTs (some m) d) m) := by
      simp only [listMax, hold]
    rw [hcons, max_eq_left hle]

theorem inWindowB_disjoint {d d' t : Int} (hne : d ≠ d')
    (h : inWindowB d t = true) : inWindowB d' t = false := by
  simp only [inWindowB, dayStart, dayEnd, Bool.and_eq_true, decide_eq_true_eq] at h
  simp only [inWindowB, dayStart, dayEnd, Bool.and_eq_false_iff, decide_eq_false_iff_not]
  omega

/-! ## Conversion-loop facts -/

theorem entrySD_some {e : GroupKey × Int × Int} {s : SeriesKey} {d : Int}
    (h : entrySD e = some (s, d)) :
    ¬ (lookupLabel e.1.2.1 "job").getD "" = "" ∧ parseBizDate e.1.2.2 = some d ∧
      s = convertedSeriesKey e.1.1 e.1.2.1 := by
  unfold entrySD at h
  split at h
  · cases h
  · rename_i hjob
    cases hp : parseBizDate e.1.2.2 with
    | none => rw [hp] at h; cases h
    | some d0 =>
      rw [hp] at h
      cases h
      exact ⟨hjob, rfl, rfl⟩

theorem convertEntry_of_entrySD_none {e : GroupKey × Int × Int} (sink : Sink)
    (h : entrySD e = none) : convertEntry sink e = (sink, (e.1, none)) := by
  unfold convertEntry
  rw [h]

theorem convertEntry_of_entrySD_some {e : GroupKey × Int × Int} {s : SeriesKey}
    {d : Int} (sink : Sink) (h : entrySD e = some (s, d)) :
    convertEntry sink e =
      (upsertSink sink (s, allocTs (maxExistingDayTs sink s d) d) e.2.1,
        (e.1, some (allocTs (maxExistingDayTs sink s d) d))) := by
  obtain ⟨hjob, hparse, rfl⟩ := entrySD_some h
  unfold convertEntry
  rw [h]
  simp only [calculateConvertedTimestamp, queryExportMaxTimestamp, if_neg hjob,
    maxExistingDayTs]

theorem assignTs_of_entrySD_none {e : GroupKey × Int × Int} (sink : Sink)
    (h : entrySD e = none) : assignTs sink e = none := by
  simp [assignTs, h]

theorem assignTs_of_entrySD_some {e : GroupKey × Int × Int} {s : SeriesKey}
    {d : Int} (sink : Sink) (h : entrySD e = some (s, d)) :
    assignTs sink e = some (allocTs (maxExistingDayTs sink s d) d) := by
  simp [assignTs, h]

/-- Converting one entry leaves the prospective assignment of any
compatible entry unchanged: the written point is invisible to the other
entry's converted-series day query. -/
theorem assignTs_convertEntry (sink : Sink) (a b : GroupKey × Int × Int)
    (hc : compatibleEntries a b) :
    assignTs (convertEntry sink a).1 b = assignTs sink b := by
  cases ha : entrySD a with
  | none => rw [convertEntry_of_entrySD_none sink ha]
  | some sda =>
    obtain ⟨s, d⟩ := sda
    rw [convertEntry_of_entrySD_some sink ha]
    cases hb : entrySD b with
    | none =>
      rw [assignTs_of_entrySD_none _ hb, assignTs_of_entrySD_none _ hb]
    | some sdb =>
      obtain ⟨s', d'⟩ := sdb
      rw [assignTs_of_entrySD_some _ hb, assignTs_of_entrySD_some _ hb]
      have hinv : maxExistingDayTs
          (upsertSink sink (s, allocTs (maxExistingDayTs sink s d) d) a.2.1) s' d'
          = maxExistingDayTs sink s' d' := by
        apply maxExistingDayTs_upsert_other
        unfold compatibleEntries compatibleEntriesB at hc
        rw [ha, hb] at hc
        simp only [Bool.or_eq_true, decide_eq_true_eq, Bool.and_eq_true,
          Bool.not_eq_true'] at hc
        rcases hc with hne | ⟨_, hm2⟩
        · have hw := allocTs_inWindow sink s d
          have := inWindowB_disjoint (fun hdd => hne (by rw [hdd])) hw
          simp [this]
        · simp [hm2]
      rw [hinv]

theorem compatibleEntries_symm : Symmetric compatibleEntries := by
  intro a b h
  unfold compatibleEntries compatibleEntriesB at h ⊢
  cases ha : entrySD a with
  | none =>
    rw [ha] at h
    cases hb : entrySD b with
    | none => simp
    | some sdb => simp
  | some sda =>
    rw [ha] at h
    cases hb : entrySD b with
    | none => simp
    | some sdb =>
      rw [hb] at h
      simp only [Bool.or_eq_true, decide_eq_true_eq, Bool.and_eq_true,
        Bool.not_eq_true'] at h ⊢
      tauto

/-- With pairwise compatible entries, the conversion loop assigns each
entry the timestamp it would get against the initial sink alone: the
assignment is independent of the processing order. -/
theorem convertAll_snd_eq_map : ∀ (es : List (GroupKey × Int × Int)) (sink : Sink),
    es.Pairwise compatibleEntries →
    (convertAll sink es).2 = es.map (fun e => (e.1, assignTs sink e))
  | [], _, _ => rfl
  | e :: rest, sink, h => by
    rw [List.pairwise_cons] at h
    obtain ⟨hhead, htail⟩ := h
    have h1 : (convertEntry sink e).2 = (e.1, assignTs sink e) := by
      cases he : entrySD e with
      | none =>
        rw [convertEntry_of_entrySD_none sink he, assignTs_of_entrySD_none sink he]
      | some sd =>
        obtain ⟨s, d⟩ := sd
        rw [convertEntry_of_entrySD_some sink he, assignTs_of_entrySD_some sink he]
    have h2 := convertAll_snd_eq_map rest (convertEntry sink e).1 htail
    have h3 : rest.map (fun b => (b.1, assignTs (convertEntry sink e).1 b))
        = rest.map (fun b => (b.1, assignTs sink b)) := by
      apply List.map_congr_left
      intro b hb
      rw [assignTs_convertEntry sink e b (hhead b hb)]
    show ((convertAll (convertEntry sink e).1 rest).1,
      (convertEntry sink e).2 :: (convertAll (convertEntry sink e).1 rest).2).2
        = _
    rw [List.map_cons, h2, h3, h1]

/-! ## Grouping facts -/

theorem lineKeyPoints_points {line : ExportLine} {key : GroupKey}
    {pts : List (Int × Int)} (h : lineKeyPoints line = some (key, pts)) :
    pts = line.points := by
  unfold lineKeyPoints at h
  split at h
  · cases h
  · cases hb : lookupLabel line.labels "biz_date" with
    | none => rw [hb] at h; cases h
    | some bd =>
      simp only [hb] at h
      by_cases hbd : bd = ""
      · rw [if_pos hbd] at h; cases h
      · rw [if_neg hbd] at h; cases h; rfl

theorem mem_replaceGroup : ∀ {l : List (GroupKey × Int × Int)} {key vt e},
    e ∈ replaceGroup l key vt → e ∈ l ∨ e = (key, vt.1, vt.2)
  | [], _, _, _, h => by simp [replaceGroup] at h
  | (k, v0, t0) :: rest, key, vt, e, h => by
    simp only [replaceGroup] at h
    split at h
    · rename_i heq
      rcases List.mem_cons.mp h with rfl | h2
      · right; rw [heq]
      · left; exact List.mem_cons_of_mem _ h2
    · rcases List.mem_cons.mp h with rfl | h2
      · left; exact List.mem_cons_self _ _
      · rcases mem_replaceGroup h2 with h3 | h3
        · left; exact List.mem_cons_of_mem _ h3
        · right; exact h3

theorem mem_groupStep {acc : List (GroupKey × Int × Int) × Option Int}
    {key : GroupKey} {p : Int × Int} {e} (h : e ∈ (groupStep acc key p).1) :
    e ∈ acc.1 ∨ e = (key, p.1, p.2) := by
  have hg : (groupStep acc key p).1 =
      match findGroup acc.1 key with
      | none => acc.1 ++ [(key, p.1, p.2)]
      | some (_, t0) => if t0 < p.2 then replaceGroup acc.1 key (p.1, p.2) else acc.1 :=
    rfl
  cases hf : findGroup acc.1 key with
  | none =>
    rw [hg] at h
    simp only [hf] at h
    rcases List.mem_append.mp h with h2 | h2
    · exact Or.inl h2
    · right; simpa using h2
  | some vt =>
    obtain ⟨v0, t0⟩ := vt
    rw [hg] at h
    simp only [hf] at h
    split at h
    · exact mem_replaceGroup h
    · exact Or.inl h

theorem grouped_ts_bound_points (P : Int → Prop) :
    ∀ (pts : List (Int × Int)) (acc : List (GroupKey × Int × Int) × Option Int)
      (key : GroupKey),
      (∀ e ∈ acc.1, P e.2.2) → (∀ p ∈ pts, P p.2) →
      ∀ e ∈ (pts.foldl (fun a p => groupStep a key p) acc).1, P e.2.2
  | [], _, _, hacc, _, e, he => hacc e he
  | p :: pts, acc, key, hacc, hpts, e, he => by
    rw [List.foldl_cons] at he
    refine grouped_ts_bound_points P pts (groupStep acc key p) key ?_ ?_ e he
    · intro e2 he2
      rcases mem_groupStep he2 with h2 | rfl
      · exact hacc e2 h2
      · exact hpts p (List.mem_cons_self _ _)
    · intro q hq
      exact hpts q (List.mem_cons_of_mem _ hq)

theorem grouped_ts_bound_lines (P : Int → Prop) :
    ∀ (lines : List ExportLine) (acc : List (GroupKey × Int × Int) × Option Int),
      (∀ e ∈ acc.1, P e.2.2) → (∀ l ∈ lines, ∀ p ∈ l.points, P p.2) →
      ∀ e ∈ (lines.foldl lineStep acc).1, P e.2.2
  | [], _, hacc, _, e, he => hacc e he
  | l :: ls, acc, hacc, hl, e, he => by
    rw [List.foldl_cons] at he
    refine grouped_ts_bound_lines P ls (lineStep acc l) ?_ ?_ e he
    · intro e2 he2
      unfold lineStep at he2
      cases hk : lineKeyPoints l with
      | none =>
        rw [hk] at he2
        exact hacc e2 he2
      | some kp =>
        obtain ⟨key, pts⟩ := kp
        rw [hk] at he2
        have hpts : pts = l.points := lineKeyPoints_points hk
        refine grouped_ts_bound_points P pts acc key hacc ?_ e2 he2
        rw [hpts]
        exact hl l (List.mem_cons_self _ _)
    · intro l2 hl2 q hq
      exact hl l2 (List.mem_cons_of_mem _ hl2) q hq

theorem lineStep_no_points {acc : List (GroupKey × Int × Int) × Option Int}
    {line : ExportLine} (h : line.points = []) : lineStep acc line = acc := by
  unfold lineStep
  cases hk : lineKeyPoints line with
  | none => rfl
  | some kp =>
    obtain ⟨key, pts⟩ := kp
    have hpts : pts = line.points := lineKeyPoints_points hk
    rw [hpts, h]
    rfl

theorem foldl_lineStep_no_points : ∀ (lines : List ExportLine)
    (acc : List (GroupKey × Int × Int) × Option Int),
    (∀ l ∈ lines, l.points = []) → lines.foldl lineStep acc = acc
  | [], _, _ => rfl
  | l :: ls, acc, h => by
    rw [List.foldl_cons, lineStep_no_points (h l (List.mem_cons_self _ _))]
    exact foldl_lineStep_no_points ls acc
      (fun l2 hl2 => h l2 (List.mem_cons_of_mem _ hl2))

/-! ## Identity registry facts -/

theorem findOrGetMetricId_rows_mono {store : MetaStore} {jx : Option Nat}
    {jobId name : String} {labels : List (String × String)} {r : MetaRow}
    (h : r ∈ store.rows) :
    r ∈ (findOrGetMetricId store jx jobId name labels).1.rows := by
  unfold findOrGetMetricId
  cases jx with
  | none => exact List.mem_append_left _ h
  | some j =>
    cases hf : findMetaRow store j jobId name
        (normalizeMetricLabelsForComparison labels) with
    | some r0 =>
      simp only [hf]
      exact h
    | none =>
      simp only [hf]
      exact List.mem_append_left _ h

theorem findOrGetMetricId_resolved_mem (store : MetaStore) (jx : Option Nat)
    (jobId name : String) (labels : List (String × String)) :
    ∃ r ∈ (findOrGetMetricId store jx jobId name labels).1.rows,
      r.jobIdx = (findOrGetMetricId store jx jobId name labels).2.1 ∧
      r.metricId = (findOrGetMetricId store jx jobId name labels).2.2 := by
  unfold findOrGetMetricId
  cases jx with
  | none =>
    refine ⟨⟨store.nextJobIdx, 1, jobId, name,
      normalizeMetricLabelsForComparison labels⟩, ?_, rfl, rfl⟩
    simp
  | some j =>
    cases hf : findMetaRow store j jobId name
        (normalizeMetricLabelsForComparison labels) with
    | some r =>
      simp only [hf]
      unfold findMetaRow at hf
      have hmem := List.mem_of_find?_eq_some hf
      have hp := List.find?_some hf
      simp only [Bool.and_eq_true, beq_iff_eq] at hp
      exact ⟨r, hmem, hp.1.1.1, rfl⟩
    | none =>
      simp only [hf]
      refine ⟨⟨j, maxMetricId store j + 1, jobId, name,
        normalizeMetricLabelsForComparison labels⟩, ?_, rfl, rfl⟩
      simp

theorem mem_data_foldl : ∀ (samples : List (Int × Int)) (data : DataStore)
    (j m rid : Nat) {p},
    p ∈ samples.foldl (fun dst q => upsertData dst (j, m, q.1) q.2 rid) data →
    p ∈ data ∨ (p.1.1 = j ∧ p.1.2.1 = m)
  | [], _, _, _, _, _, h => Or.inl h
  | q :: qs, data, j, m, rid, p, h => by
    rw [List.foldl_cons] at h
    rcases mem_data_foldl qs _ j m rid h with h2 | h2
    · rcases List.mem_cons.mp h2 with rfl | h3
      · exact Or.inr ⟨rfl, rfl⟩
      · exact Or.inl h3
    · exact Or.inr h2

/-! ## Sink lookup facts -/

theorem lookupSink_upsert_self (sink : Sink) (k : SeriesKey × Int) (v : Int) :
    lookupSink (upsertSink sink k v) k = some v := by
  simp [lookupSink, upsertSink, List.find?]

/-! ## Claims -/

/-- Claim C3, counterexample: with watermark value 1000, now 5000 and a
30-day lookback configuration, the computed fetch window start is exactly
1000 — the watermark itself, with no grace-period overlap subtracted,
contradicting the claim that the window starts at the watermark minus a
configured overlap rather than exactly at the watermark. -/
theorem c3_counterexample : computeWindowStart (some 1000) 5000 30 = 1000 := by
  decide

/-- Claim C3, amended: for every selector whose watermark has a nonzero
value W, the next fetch window starts exactly at W; no overlap or grace
period is subtracted. A zero watermark falls back to the lookback window
because of Python truthiness. -/
theorem c3_amended (w nowTs lookbackDays : Int) (h : w ≠ 0) :
    computeWindowStart (some w) nowTs lookbackDays = w := by
  simp [computeWindowStart, h]

theorem c3_amended_witness : computeWindowStart (some 90000) 110000 30 = 90000 :=
  c3_amended 90000 110000 30 (by decide)

/-- Claim C7: if the fetch for a selector yields zero input points, the
selector watermark after the run equals its value before the run and no
watermark write is issued for that scope. -/
theorem c7_watermark_unchanged (selector : String) (src : List ExportLine)
    (sink : Sink) (wm : Option Int) (nowTs lookbackDays : Int)
    (h : ∀ l ∈ fetchWindow (computeWindowStart wm nowTs lookbackDays) nowTs src,
      l.points = []) :
    (runSelector selector src sink wm nowTs lookbackDays).wm = wm ∧
    (runSelector selector src sink wm nowTs lookbackDays).wmWrites = [] := by
  have hq : queryGroupedMetrics
      (fetchWindow (computeWindowStart wm nowTs lookbackDays) nowTs src)
      = ([], none) :=
    foldl_lineStep_no_points _ _ h
  unfold runSelector
  simp only [hq]
  split
  · exact ⟨rfl, rfl⟩
  · exact ⟨rfl, rfl⟩

theorem c7_watermark_unchanged_witness :
    (runSelector "s" [⟨"m", [("biz_date", "1"), ("job", "j")], [(5, 10)]⟩]
      [] (some 1000) 2000 30).wm = some 1000 ∧
    (runSelector "s" [⟨"m", [("biz_date", "1"), ("job", "j")], [(5, 10)]⟩]
      [] (some 1000) 2000 30).wmWrites = [] :=
  c7_watermark_unchanged "s" [⟨"m", [("biz_date", "1"), ("job", "j")], [(5, 10)]⟩]
    [] (some 1000) 2000 30 (by decide)

/-- Claim C9: resolving an identity with two label maps holding the same
key-value pairs in any order gives the same result, store included,
because labels are normalized by sorting before comparison. -/
theorem c9_label_order_independence (store : MetaStore) (jx : Option Nat)
    (ns n : String) {l1 l2 : List (String × String)} (h : l1.Perm l2) :
    findOrGetMetricId store jx ns n l1 = findOrGetMetricId store jx ns n l2 := by
  have hn : normalizeMetricLabelsForComparison l1
      = normalizeMetricLabelsForComparison l2 := by
    unfold normalizeMetricLabelsForComparison
    exact sortLabels_eq_of_perm h
  simp only [findOrGetMetricId, hn]

theorem c9_label_order_independence_witness :
    findOrGetMetricId ⟨[], 0⟩ none "ns" "m" [("a", "1"), ("b", "2")] =
      findOrGetMetricId ⟨[], 0⟩ none "ns" "m" [("b", "2"), ("a", "1")] :=
  c9_label_order_independence ⟨[], 0⟩ none "ns" "m" (by decide)

/-- Claim C10: a failed lookup of the already-written converted points
never propagates — the raised export call makes the allocator return
midnight (day start) of the business date, the same timestamp the first
sample of an empty day receives, and an upsert at that shared key
overwrites whatever value was stored there. -/
theorem c10_failed_lookup_returns_day_start (err : String) (d : Int)
    (sink : Sink) (v : Int) :
    calculateConvertedTimestamp (Except.error err) "m" [("job", "j")] d
      = dayStart d ∧
    calculateConvertedTimestamp (Except.ok []) "m" [("job", "j")] d
      = dayStart d ∧
    lookupSink (upsertSink sink (convertedSeriesKey "m" [("job", "j")], dayStart d) v)
      (convertedSeriesKey "m" [("job", "j")], dayStart d) = some v := by
  refine ⟨rfl, rfl, lookupSink_upsert_self sink _ v⟩

/-- Claim C1, counterexample: one input sample (value 7, source timestamp
90000, business day 1) is converted by a first run, which advances the
selector watermark to 90000. A second run over the unchanged source window
re-fetches the boundary sample (the window starts at the watermark,
inclusive) and writes it at a freshly allocated output timestamp 86401 —
a key the sink did not hold after the first run. The second run therefore
changes the sink's observable state, refuting idempotence. -/
theorem c1_counterexample :
    lookupSink (runSelector "s"
        [⟨"m", [("biz_date", "1"), ("job", "j")], [(7, 90000)]⟩]
        (runSelector "s" [⟨"m", [("biz_date", "1"), ("job", "j")], [(7, 90000)]⟩]
          [] none 100000 30).sink
        (runSelector "s" [⟨"m", [("biz_date", "1"), ("job", "j")], [(7, 90000)]⟩]
          [] none 100000 30).wm
        110000 30).sink
      ((("m", [("job", "j"), ("timeseries_type", "converted")]) : SeriesKey), 86401)
      = some 7 ∧
    lookupSink (runSelector "s"
        [⟨"m", [("biz_date", "1"), ("job", "j")], [(7, 90000)]⟩]
        [] none 100000 30).sink
      ((("m", [("job", "j"), ("timeseries_type", "converted")]) : SeriesKey), 86401)
      = none := by
  decide

/-- Claim C1, amended: only the upsert itself is idempotent — rewriting an
(identity, output timestamp) key with the value it already holds leaves
the sink's observable state unchanged at every key. Rerunning the
coordinator over an unchanged window is not a no-op in general, because a
sample whose source timestamp equals the watermark is re-fetched and
allocated a fresh output timestamp. -/
theorem c1_amended_upsert_idempotent {sink : Sink} {k : SeriesKey × Int}
    {v : Int} (h : lookupSink sink k = some v) (k' : SeriesKey × Int) :
    lookupSink (upsertSink sink k v) k' = lookupSink sink k' := by
  by_cases hk : k' = k
  · subst hk
    rw [lookupSink_upsert_self, h]
  · have hb : (k == k') = false := beq_eq_false_iff_ne.mpr (fun he => hk he.symm)
    simp [lookupSink, upsertSink, List.find?, hb]

theorem c1_amended_upsert_idempotent_witness :
    lookupSink [(((("m", []) : SeriesKey), 5), 7)] ((("m", []) : SeriesKey), 5)
      = some 7 ∧
    lookupSink (upsertSink [(((("m", []) : SeriesKey), 5), 7)]
        ((("m", []) : SeriesKey), 5) 7) ((("m", []) : SeriesKey), 5)
      = lookupSink [(((("m", []) : SeriesKey), 5), 7)] ((("m", []) : SeriesKey), 5) :=
  ⟨by decide, c1_amended_upsert_idempotent (by decide) _⟩

/-- Claim C2, counterexample: with watermark W = 90000, the input sample
whose source timestamp is exactly W (not strictly newer) is fetched again
(the window is [W, now], inclusive), survives grouping, and is converted
and assigned an output timestamp — it is not dropped before conversion. -/
theorem c2_counterexample :
    ((("m", [("job", "j")], "1") : GroupKey), 7, 90000) ∈
      (queryGroupedMetrics (fetchWindow (computeWindowStart (some 90000) 110000 30)
        110000 [⟨"m", [("biz_date", "1"), ("job", "j")], [(7, 90000)]⟩])).1 ∧
    (convertAll [] (queryGroupedMetrics
        (fetchWindow (computeWindowStart (some 90000) 110000 30)
          110000 [⟨"m", [("biz_date", "1"), ("job", "j")], [(7, 90000)]⟩])).1).2
      = [((("m", [("job", "j")], "1") : GroupKey), some 86400)] := by
  decide

/-- Claim C2, amended: no explicit drop step exists; samples below the
watermark are excluded only by the fetch window itself, which starts at
the nonzero watermark W inclusively. Every grouped sample therefore has a
source timestamp at least W — but a sample at exactly W is reprocessed. -/
theorem c2_amended (src : List ExportLine) (w nowTs lookbackDays : Int)
    (hw : w ≠ 0) {key : GroupKey} {v t : Int}
    (h : (key, v, t) ∈ (queryGroupedMetrics
      (fetchWindow (computeWindowStart (some w) nowTs lookbackDays) nowTs src)).1) :
    w ≤ t := by
  have hstart : computeWindowStart (some w) nowTs lookbackDays = w := by
    simp [computeWindowStart, hw]
  rw [hstart] at h
  refine grouped_ts_bound_lines (fun x => w ≤ x) (fetchWindow w nowTs src)
    ([], none) ?_ ?_ (key, v, t) h
  · intro e he
    simp at he
  · intro l hl p hp
    simp only [fetchWindow, List.mem_map] at hl
    obtain ⟨l0, _, rfl⟩ := hl
    simp only [List.mem_filter, Bool.and_eq_true, decide_eq_true_eq] at hp
    exact hp.2.1

theorem c2_amended_witness :
    (90000 : Int) ≠ 0 ∧ (90000 : Int) ≤ 90000 :=
  ⟨by decide, @c2_amended
    [⟨"m", [("biz_date", "1"), ("job", "j")], [(7, 90000)]⟩] 90000 110000 30
    (by decide) ("m", [("job", "j")], "1") 7 90000 (by decide)⟩

/-- Claim C4, counterexample: a run that places one business-day-1 sample
allocates the day cursor 86400 (the converted point is written there), yet
the only watermark write the run issues is the selector-scope watermark
carrying the max source timestamp 90000 — no write carries the final
allocator cursor, so no business-date watermark is persisted. -/
theorem c4_counterexample :
    (runSelector "s" [⟨"m", [("biz_date", "1"), ("job", "j")], [(7, 90000)]⟩]
      [] none 100000 30).wmWrites = [("s", 90000)] ∧
    lookupSink (runSelector "s"
        [⟨"m", [("biz_date", "1"), ("job", "j")], [(7, 90000)]⟩]
        [] none 100000 30).sink
      ((("m", [("job", "j"), ("timeseries_type", "converted")]) : SeriesKey), 86400)
      = some 7 ∧
    (∀ p ∈ (runSelector "s" [⟨"m", [("biz_date", "1"), ("job", "j")], [(7, 90000)]⟩]
      [] none 100000 30).wmWrites, p.2 ≠ 86400) := by
  decide

/-- Claim C4, amended: no business-date-scope watermark is ever written;
the converted points themselves persist the day cursor. After the point
allocated for a (series, day) is upserted, the maximum existing converted
timestamp of that series on that day equals the allocated timestamp, which
is exactly what the next allocation resumes from. -/
theorem c4_amended (sink : Sink) (s : SeriesKey) (d v : Int) :
    maxExistingDayTs (upsertSink sink (s, allocTs (maxExistingDayTs sink s d) d) v) s d
      = some (allocTs (maxExistingDayTs sink s d) d) :=
  maxExistingDayTs_place sink s d v

/-- Claim C5, counterexample: a run with two samples for the same business
day (day 1) but different label sets allocates both the same output
timestamp 86400 = day start, because the allocator cursor is kept per
converted series, not per business date — the outputs are not strictly
increasing in submission order. -/
theorem c5_counterexample :
    ((convertAll [] [(("m", [("job", "j"), ("x", "a")], "1"), 7, 100),
        (("m", [("job", "j"), ("x", "b")], "1"), 8, 200)]).2.filterMap Prod.snd)
      = [86400, 86400] ∧
    ¬ List.Chain' (fun a b : Int => a < b)
      ((convertAll [] [(("m", [("job", "j"), ("x", "a")], "1"), 7, 100),
        (("m", [("job", "j"), ("x", "b")], "1"), 8, 200)]).2.filterMap Prod.snd) := by
  constructor
  · decide
  · intro hch
    rw [show ((convertAll [] [(("m", [("job", "j"), ("x", "a")], "1"), 7, 100),
        (("m", [("job", "j"), ("x", "b")], "1"), 8, 200)]).2.filterMap Prod.snd)
      = [86400, 86400] from by decide] at hch
    simp [List.chain'_cons] at hch

/-- Claim C5, amended: per (converted series, business date) the invariant
holds — every allocated output timestamp lies within the day window
[day start, day start + 86399], and as long as the previous allocation is
below the day-end clamp, the next allocation for the same series and day
is strictly one second larger. Samples of the same date in different
series are allocated independently and may coincide. -/
theorem c5_amended (sink : Sink) (s : SeriesKey) (d v1 v2 : Int)
    (h : (placeSample sink s d v1).2 < dayEnd d) :
    inWindowB d (placeSample sink s d v1).2 = true ∧
    inWindowB d (placeSample (placeSample sink s d v1).1 s d v2).2 = true ∧
    (placeSample sink s d v1).2 < (placeSample (placeSample sink s d v1).1 s d v2).2 := by
  refine ⟨allocTs_inWindow sink s d, allocTs_inWindow _ s d, ?_⟩
  have hplace := maxExistingDayTs_place sink s d v1
  show allocTs (maxExistingDayTs sink s d) d <
    allocTs (maxExistingDayTs
      (upsertSink sink (s, allocTs (maxExistingDayTs sink s d) d) v1) s d) d
  rw [hplace]
  have h2 : allocTs (maxExistingDayTs sink s d) d < dayEnd d := h
  show allocTs (maxExistingDayTs sink s d) d <
    min (allocTs (maxExistingDayTs sink s d) d + 1) (dayEnd d)
  rw [min_eq_left (by omega)]
  omega

theorem c5_amended_witness :
    (placeSample [] (("m", [("job", "j")]) : SeriesKey) 0 7).2 < dayEnd 0 ∧
    inWindowB 0 (placeSample [] (("m", [("job", "j")]) : SeriesKey) 0 7).2 = true ∧
    inWindowB 0 (placeSample (placeSample []
      (("m", [("job", "j")]) : SeriesKey) 0 7).1
      (("m", [("job", "j")]) : SeriesKey) 0 8).2 = true ∧
    (placeSample [] (("m", [("job", "j")]) : SeriesKey) 0 7).2 <
      (placeSample (placeSample [] (("m", [("job", "j")]) : SeriesKey) 0 7).1
        (("m", [("job", "j")]) : SeriesKey) 0 8).2 := by
  have h := c5_amended [] (("m", [("job", "j")]) : SeriesKey) 0 7 8 (by decide)
  exact ⟨by decide, h.1, h.2.1, h.2.2⟩

/-- Claim C6, counterexample: no sorting step exists before allocation —
the conversion loop visits grouped samples in source-response insertion
order. With a day-2 line arriving before a day-1 line, the processed
(business date, original timestamp) sequence is [(2, 100), (1, 50)], which
is not sorted by business date then original timestamp. -/
theorem c6_counterexample :
    groupedDateTsOrder [⟨"m", [("biz_date", "2"), ("job", "j"), ("x", "a")], [(1, 100)]⟩,
        ⟨"m", [("biz_date", "1"), ("job", "j"), ("x", "b")], [(2, 50)]⟩]
      = [(2, 100), (1, 50)] ∧
    specSortedByDateThenTs
      (groupedDateTsOrder [⟨"m", [("biz_date", "2"), ("job", "j"), ("x", "a")], [(1, 100)]⟩,
        ⟨"m", [("biz_date", "1"), ("job", "j"), ("x", "b")], [(2, 50)]⟩])
      = false := by
  decide

/-- Claim C6, amended: determinism of the allocator does not come from a
sort; it holds because each allocation depends only on the sink content
for its own series and day. Over pairwise non-interfering grouped entries
(distinct business days, or converted-series queries matching neither
written series), two runs over permutations of the same entry set produce
the same multiset of per-entry output timestamp assignments. -/
theorem c6_amended (sink : Sink) {g1 g2 : List (GroupKey × Int × Int)}
    (hperm : g1.Perm g2) (hp : g1.Pairwise compatibleEntries) :
    ((convertAll sink g1).2).Perm ((convertAll sink g2).2) := by
  have hp2 : g2.Pairwise compatibleEntries :=
    (List.Perm.pairwise_iff (fun hab => compatibleEntries_symm hab) hperm).mp hp
  rw [convertAll_snd_eq_map g1 sink hp, convertAll_snd_eq_map g2 sink hp2]
  exact hperm.map _

theorem c6_amended_witness :
    ((convertAll [] [(("m", [("job", "j"), ("x", "a")], "1"), 7, 100),
        (("m", [("job", "j"), ("x", "b")], "2"), 8, 200)]).2).Perm
      ((convertAll [] [(("m", [("job", "j"), ("x", "b")], "2"), 8, 200),
        (("m", [("job", "j"), ("x", "a")], "1"), 7, 100)]).2) :=
  c6_amended [] (by decide) (by decide)

/-- Claim C8: the identity registry allocates correctly for unseen keys.
With no job index yet for the namespace, a single insert allocates the
store-generated next job index together with metric id 1 and returns both;
with an existing job index but no row matching the normalized identity
key, the new row gets max existing metric id for that job index plus one;
and saving a series writes every data point against a metadata row already
present in the committed store, preserving the foreign-key invariant. -/
theorem c8_resolve_allocation
    (store1 store2 meta : MetaStore) (data : DataStore) (series : SeriesHistory)
    (ns n fb : String) (l : List (String × String)) (j runId : Nat)
    (h1 : findOrGetJobIdx store1 ns = none)
    (h2 : findOrGetJobIdx store2 ns = some j)
    (h3 : findMetaRow store2 j ns n (normalizeMetricLabelsForComparison l) = none)
    (h4 : FKInv meta data) :
    (resolveIdentity store1 ns n l).2 = (store1.nextJobIdx, 1) ∧
    (resolveIdentity store1 ns n l).1.rows = store1.rows ++
      [⟨store1.nextJobIdx, 1, ns, n, normalizeMetricLabelsForComparison l⟩] ∧
    (resolveIdentity store2 ns n l).2 = (j, maxMetricId store2 j + 1) ∧
    FKInv (saveSeriesToDatabase meta data series runId fb).1
      (saveSeriesToDatabase meta data series runId fb).2.1 := by
  refine ⟨?_, ?_, ?_, ?_⟩
  · unfold resolveIdentity
    rw [h1]
    rfl
  · unfold resolveIdentity
    rw [h1]
    rfl
  · unfold resolveIdentity
    rw [h2]
    unfold findOrGetMetricId
    simp only [h3]
  · unfold saveSeriesToDatabase
    intro p hp
    rcases mem_data_foldl series.samples data _ _ runId hp with hin | ⟨hj, hm⟩
    · obtain ⟨r, hr, hr1, hr2⟩ := h4 p hin
      exact ⟨r, findOrGetMetricId_rows_mono hr, hr1, hr2⟩
    · obtain ⟨r, hr, hr1, hr2⟩ := findOrGetMetricId_resolved_mem meta _ _ _ _
      exact ⟨r, hr, hr1.trans hj.symm, hr2.trans hm.symm⟩

theorem c8_resolve_allocation_witness :
    (resolveIdentity ⟨[], 5⟩ "ns" "m" [("b", "2"), ("a", "1")]).2 = (5, 1) ∧
    (resolveIdentity ⟨[], 5⟩ "ns" "m" [("b", "2"), ("a", "1")]).1.rows =
      [⟨5, 1, "ns", "m", [("a", "1"), ("b", "2")]⟩] ∧
    (resolveIdentity ⟨[⟨3, 4, "ns", "k", []⟩], 9⟩ "ns" "m" [("b", "2"), ("a", "1")]).2
      = (3, 5) ∧
    FKInv (saveSeriesToDatabase ⟨[], 0⟩ [] ⟨"m", [("job", "x")], [(10, 7)]⟩ 1 "fb").1
      (saveSeriesToDatabase ⟨[], 0⟩ [] ⟨"m", [("job", "x")], [(10, 7)]⟩ 1 "fb").2.1 := by
  have h := c8_resolve_allocation ⟨[], 5⟩ ⟨[⟨3, 4, "ns", "k", []⟩], 9⟩ ⟨[], 0⟩ []
    ⟨"m", [("job", "x")], [(10, 7)]⟩ "ns" "m" "fb" [("b", "2"), ("a", "1")] 3 1
    (by decide) (by decide) (by decide) (by intro p hp; simp at hp)
  refine ⟨h.1, ?_, ?_, h.2.2.2⟩
  · rw [h.2.1]
    decide
  · rw [h.2.2.1]
    decide

end CaspianJobs
